import Mathlib

/-!
Shallow embedding of `src/nlp_parser.py` (bookaboo): a rule-based
natural-language parser for restaurant reservation requests.

Python strings are modelled as `List Char` (ASCII), `re` searches as
explicit leftmost scanners that mirror each pattern of the source,
`datetime.date` values as proleptic-Gregorian day numbers (`Nat`,
with day 0 = 0001-01-01; Python `date` comparison and `timedelta`
addition coincide with `Nat` order and addition on these ordinals),
and the fallible `date(...)` constructor as an `Option`-returning
`mkDate` (the `try/except ValueError` of the source becomes `Option`
case analysis).
-/

set_option maxRecDepth 10000

-- ---------------------------------------------------------------------------
-- Character primitives (Python `\w`, `\s`, `str.lower`, ASCII fragment)
-- ---------------------------------------------------------------------------

def isWordChar (c : Char) : Bool := c.isAlpha || c.isDigit || c = '_'

def isSpaceChar (c : Char) : Bool :=
  c = ' ' || c = '\t' || c = '\n' || c = '\r' || c = Char.ofNat 11 || c = Char.ofNat 12

def lowerChar (c : Char) : Char := if c.isUpper then Char.ofNat (c.toNat + 32) else c

def lowerStr (s : List Char) : List Char := s.map lowerChar

def dval (c : Char) : Nat := c.toNat - 48

def digitChar (n : Nat) : Char := Char.ofNat (48 + n)

def apos : Char := Char.ofNat 39

/-- Boundary test: `\b` holds just before a word character when the previous character
(if any) is not a word character. -/
def boundaryOk (prev : Option Char) : Bool :=
  match prev with
  | none => true
  | some c => !isWordChar c

/-- Boundary test: `\b` holds just after a word character when the next character is
absent or not a word character. -/
def headNonWord : List Char → Bool
  | [] => true
  | c :: _ => !isWordChar c

/-- Strip a literal pattern from the front (case sensitive). -/
def dropLit : List Char → List Char → Option (List Char)
  | [], s => some s
  | _ :: _, [] => none
  | p :: ps, c :: cs => if c = p then dropLit ps cs else none

/-- Strip a literal pattern from the front, case-insensitively
(the pattern is given in lower case). -/
def dropLitCI : List Char → List Char → Option (List Char)
  | [], s => some s
  | _ :: _, [] => none
  | p :: ps, c :: cs => if lowerChar c = p then dropLitCI ps cs else none

def dropSpaces : List Char → List Char
  | [] => []
  | c :: cs => if isSpaceChar c then dropSpaces cs else c :: cs

/-- Pattern `\s+`: at least one whitespace character, consumed greedily. -/
def eatSpaces1 : List Char → Option (List Char)
  | [] => none
  | c :: cs => if isSpaceChar c then some (dropSpaces cs) else none

/-- Leftmost search: try the position matcher at every suffix, carrying the
previous character for `\b` computations.  Mirrors `re.search`. -/
def scanOptFrom {α : Type} (p : Option Char → List Char → Option α) :
    Option Char → List Char → Option α
  | _, [] => none
  | prev, c :: cs =>
    match p prev (c :: cs) with
    | some r => some r
    | none => scanOptFrom p (some c) cs

/-- Truth of `re.search(r"\bw\b", s) is not None` for a literal word `w`. -/
def containsWordFrom (w : List Char) : Option Char → List Char → Bool
  | _, [] => false
  | prev, c :: cs =>
    (boundaryOk prev &&
      (match dropLit w (c :: cs) with
       | some rest => headNonWord rest
       | none => false)) ||
    containsWordFrom w (some c) cs

def containsWord (w s : List Char) : Bool := containsWordFrom w none s

-- ---------------------------------------------------------------------------
-- Calendar model (Python `datetime.date` as proleptic-Gregorian ordinals)
-- ---------------------------------------------------------------------------

def isLeap (y : Nat) : Bool := (y % 4 = 0 && y % 100 != 0) || y % 400 = 0

def daysInMonth (y m : Nat) : Nat :=
  if m = 2 then (if isLeap y then 29 else 28)
  else if m = 4 || m = 6 || m = 9 || m = 11 then 30
  else 31

def daysBeforeMonth (y m : Nat) : Nat :=
  let l : Nat := if isLeap y then 1 else 0
  match m with
  | 1 => 0
  | 2 => 31
  | 3 => 59 + l
  | 4 => 90 + l
  | 5 => 120 + l
  | 6 => 151 + l
  | 7 => 181 + l
  | 8 => 212 + l
  | 9 => 243 + l
  | 10 => 273 + l
  | 11 => 304 + l
  | 12 => 334 + l
  | _ => 0

/-- Number of leap years in `[1, y]`. -/
def leapsBefore (y : Nat) : Nat := y / 4 + y / 400 - y / 100

def daysBeforeYear (y : Nat) : Nat := 365 * (y - 1) + leapsBefore (y - 1)

/-- Day ordinal of a civil date, with 0001-01-01 ↦ 0 (a Monday, so
Python's `weekday()` is ordinal `% 7`). -/
def toNum (y m d : Nat) : Nat := daysBeforeYear y + daysBeforeMonth y m + (d - 1)

def isValidYMD (y m d : Nat) : Bool :=
  1 ≤ y && y ≤ 9999 && 1 ≤ m && m ≤ 12 && 1 ≤ d && d ≤ daysInMonth y m

/-- Constructor `datetime.date(y, m, d)`: it raises `ValueError` on
invalid input, modelled as `none`. -/
def mkDate (y m d : Nat) : Option Nat :=
  if isValidYMD y m d then some (toNum y m d) else none

/-- The reference instant handed to the parser (`datetime`); only its
date components are used (`.date()`). -/
structure DateTime where
  year : Nat
  month : Nat
  day : Nat
deriving DecidableEq, Repr

def dtToNum (dt : DateTime) : Nat := toNum dt.year dt.month dt.day

def validDT (dt : DateTime) : Bool := isValidYMD dt.year dt.month dt.day

-- ---------------------------------------------------------------------------
-- `_parse_date` (src/nlp_parser.py lines 90-156)
-- ---------------------------------------------------------------------------

/-- Insertion order of `_WEEKDAY_MAP` (a Python dict iterates in
insertion order). -/
def _WEEKDAY_MAP : List (List Char × Nat) :=
  [("monday".toList, 0), ("mon".toList, 0),
   ("tuesday".toList, 1), ("tue".toList, 1), ("tues".toList, 1),
   ("wednesday".toList, 2), ("wed".toList, 2),
   ("thursday".toList, 3), ("thu".toList, 3), ("thur".toList, 3), ("thurs".toList, 3),
   ("friday".toList, 4), ("fri".toList, 4),
   ("saturday".toList, 5), ("sat".toList, 5),
   ("sunday".toList, 6), ("sun".toList, 6)]

def _MONTH_MAP : List (List Char × Nat) :=
  [("january".toList, 1), ("jan".toList, 1),
   ("february".toList, 2), ("feb".toList, 2),
   ("march".toList, 3), ("mar".toList, 3),
   ("april".toList, 4), ("apr".toList, 4),
   ("may".toList, 5),
   ("june".toList, 6), ("jun".toList, 6),
   ("july".toList, 7), ("jul".toList, 7),
   ("august".toList, 8), ("aug".toList, 8),
   ("september".toList, 9), ("sep".toList, 9), ("sept".toList, 9),
   ("october".toList, 10), ("oct".toList, 10),
   ("november".toList, 11), ("nov".toList, 11),
   ("december".toList, 12), ("dec".toList, 12)]

def hasTonightOrToday (lower : List Char) : Bool :=
  containsWord "tonight".toList lower || containsWord "today".toList lower

def hasTomorrow (lower : List Char) : Bool :=
  containsWord "tomorrow".toList lower

/-- First entry of `_WEEKDAY_MAP` whose name occurs as a word
(`re.search(rf"\b{name}\b", lower)`), mirroring the source's
`for name, weekday_num in _WEEKDAY_MAP.items()` loop. -/
def findWeekday (lower : List Char) : Option (List Char × Nat) :=
  _WEEKDAY_MAP.find? (fun p => containsWord p.1 lower)

/-- Truth of `re.search(rf"\bnext\s+{name}\b", lower) is not None`. -/
def nextNameAt (w : List Char) (s : List Char) : Bool :=
  match dropLit "next".toList s with
  | some r1 =>
    (match eatSpaces1 r1 with
     | some r2 =>
       (match dropLit w r2 with
        | some r3 => headNonWord r3
        | none => false)
     | none => false)
  | none => false

def hasNextNameFrom (w : List Char) : Option Char → List Char → Bool
  | _, [] => false
  | prev, c :: cs =>
    (boundaryOk prev && nextNameAt w (c :: cs)) || hasNextNameFrom w (some c) cs

def hasNextName (w lower : List Char) : Bool := hasNextNameFrom w none lower

/-- Pattern `(\d{1,2})\b` at the current position: one or two digits (greedy,
with regex backtracking) followed by a word boundary. -/
def digit2Bound : List Char → Option Nat
  | [] => none
  | [a] => if a.isDigit then some (dval a) else none
  | a :: b :: rest =>
    if a.isDigit then
      if b.isDigit then
        (if headNonWord rest then some (10 * dval a + dval b) else none)
      else if !isWordChar b then some (dval a) else none
    else none

/-- Pattern `\b{month}\s+(\d{1,2})\b` at the current position (after `\b`). -/
def monthDay1At (mn : List Char) (s : List Char) : Option Nat :=
  match dropLit mn s with
  | some r1 =>
    (match eatSpaces1 r1 with
     | some r2 => digit2Bound r2
     | none => none)
  | none => none

/-- Pattern `\s+{month}\b` starting right after the day digits. -/
def monthDay2Tail (mn : List Char) (s : List Char) : Bool :=
  match eatSpaces1 s with
  | some r =>
    (match dropLit mn r with
     | some r2 => headNonWord r2
     | none => false)
  | none => false

/-- Pattern `\b(\d{1,2})\s+{month}\b` at the current position (after `\b`). -/
def monthDay2At (mn : List Char) : List Char → Option Nat
  | [] => none
  | [_] => none
  | a :: b :: rest =>
    if a.isDigit then
      if b.isDigit then
        (if monthDay2Tail mn rest then some (10 * dval a + dval b) else none)
      else (if monthDay2Tail mn (b :: rest) then some (dval a) else none)
    else none

/-- The source searches the whole text for `\b{month}\s+(\d{1,2})\b`
first and only then for `\b(\d{1,2})\s+{month}\b`. -/
def findMonthDay (mn lower : List Char) : Option Nat :=
  match scanOptFrom (fun prev s => if boundaryOk prev then monthDay1At mn s else none) none lower with
  | some d => some d
  | none =>
    scanOptFrom (fun prev s => if boundaryOk prev then monthDay2At mn s else none) none lower

/-- Loop over `_MONTH_MAP.items()`: build the
date in the reference year, roll to the next year when it precedes
`today`; a `ValueError` (invalid day) falls through to the next month
name. -/
def monthRule : List (List Char × Nat) → List Char → Nat → Nat → Option Nat
  | [], _, _, _ => none
  | (mn, mnum) :: rest, lower, y, today =>
    match findMonthDay mn lower with
    | some day =>
      (match mkDate y mnum day with
       | some d =>
         if d < today then
           (match mkDate (y + 1) mnum day with
            | some d2 => some d2
            | none => monthRule rest lower y today)
         else some d
       | none => monthRule rest lower y today)
    | none => monthRule rest lower y today

/-- Exactly `n` digits, accumulating their value. -/
def takeDigits : Nat → Nat → List Char → Option (Nat × List Char)
  | 0, acc, s => some (acc, s)
  | _ + 1, _, [] => none
  | n + 1, acc, c :: cs => if c.isDigit then takeDigits n (10 * acc + dval c) cs else none

/-- Pattern `\b(\d{4})-(\d{2})-(\d{2})\b` at the current position (after `\b`). -/
def isoAt (s : List Char) : Option (Nat × Nat × Nat) :=
  match takeDigits 4 0 s with
  | some (y, c1 :: r1) =>
    if c1 = '-' then
      match takeDigits 2 0 r1 with
      | some (mo, c2 :: r2) =>
        if c2 = '-' then
          match takeDigits 2 0 r2 with
          | some (da, r3) => if headNonWord r3 then some (y, mo, da) else none
          | none => none
        else none
      | some (_, []) => none
      | none => none
    else none
  | some (_, []) => none
  | none => none

def isoFind (text : List Char) : Option (Nat × Nat × Nat) :=
  scanOptFrom (fun prev s => if boundaryOk prev then isoAt s else none) none text

/-- The ISO rule: parse literally; an invalid calendar value falls
through (`except ValueError: pass`). -/
def isoRule (text : List Char) : Option Nat :=
  match isoFind text with
  | some (y, mo, da) => mkDate y mo da
  | none => none

def slashSep (c : Char) : Bool := c = '/' || c = '-'

/-- Pattern `(\d{1,2})\b` as the second group of the slash pattern. -/
def slashTail (a : Nat) (s : List Char) : Option (Nat × Nat) :=
  match digit2Bound s with
  | some b => some (a, b)
  | none => none

/-- Pattern `\b(\d{1,2})[/\-](\d{1,2})\b` at the current position (after `\b`). -/
def slashAt : List Char → Option (Nat × Nat)
  | [] => none
  | [_] => none
  | a :: b :: rest =>
    if a.isDigit then
      if b.isDigit then
        (match rest with
         | c :: rest2 => if slashSep c then slashTail (10 * dval a + dval b) rest2 else none
         | [] => none)
      else if slashSep b then slashTail (dval a) rest else none
    else none

def slashFind (text : List Char) : Option (Nat × Nat) :=
  scanOptFrom (fun prev s => if boundaryOk prev then slashAt s else none) none text

/-- Loop `for (month, day) in [(b, a), (a, b)]`: accept the first plausible
interpretation; a `ValueError` on either construction continues to the
next interpretation. -/
def slashTry : List (Nat × Nat) → Nat → Nat → Option Nat
  | [], _, _ => none
  | (month, day) :: rest, y, today =>
    if 1 ≤ month ∧ month ≤ 12 ∧ 1 ≤ day ∧ day ≤ 31 then
      match mkDate y month day with
      | some d =>
        if d < today then
          (match mkDate (y + 1) month day with
           | some d2 => some d2
           | none => slashTry rest y today)
        else some d
      | none => slashTry rest y today
    else slashTry rest y today

def slashRule (text : List Char) (y today : Nat) : Option Nat :=
  match slashFind text with
  | some (a, b) => slashTry [(b, a), (a, b)] y today
  | none => none

/-- Embedding of `_parse_date`: ordered rule cascade over the lower-cased text
(numeric rules search the original text, whose digits are unaffected
by lower-casing). -/
def _parse_date (text : String) (now : DateTime) : Option Nat :=
  let today := dtToNum now
  let lower := lowerStr text.toList
  if hasTonightOrToday lower then some today
  else if hasTomorrow lower then some (today + 1)
  else
    match findWeekday lower with
    | some (name, weekdayNum) =>
      let daysAhead := (((weekdayNum : Int) - ((today % 7 : Nat) : Int)) % 7).toNat
      -- "next Friday" always means at least 7 days out if today IS Friday
      let daysAhead :=
        if hasNextName name lower then
          (if daysAhead = 0 then 7 else daysAhead)
        else
          (if daysAhead = 0 then 7 else daysAhead)
      some (today + daysAhead)
    | none =>
      match monthRule _MONTH_MAP lower now.year today with
      | some d => some d
      | none =>
        match isoRule text.toList with
        | some d => some d
        | none => slashRule text.toList now.year today

-- ---------------------------------------------------------------------------
-- `_parse_time` (src/nlp_parser.py lines 159-205)
-- ---------------------------------------------------------------------------

/-- Remove every match of `\b\d{4}-\d{2}-\d{2}\b` (`re.sub`); boundaries
are judged against the original neighbours, scanning resumes after each
match.  Runs on fuel (one unit per examined position suffices). -/
def subISOAux : Nat → Option Char → List Char → List Char
  | 0, _, s => s
  | _ + 1, _, [] => []
  | fuel + 1, prev, c :: cs =>
    match (if boundaryOk prev then isoAt (c :: cs) else none) with
    | some (_, _, da) => subISOAux fuel (some (digitChar (da % 10))) (List.drop 9 cs)
    | none => c :: subISOAux fuel (some c) cs

def subISO (s : List Char) : List Char := subISOAux (s.length + 1) none s

/-- Pattern `\b(\d{1,2})[/\-](\d{1,2})\b` at the current position, also returning
the rest of the input after the match (for `re.sub`). -/
def slashAtR : List Char → Option (Nat × Nat × List Char)
  | [] => none
  | [_] => none
  | a :: b :: rest =>
    if a.isDigit then
      if b.isDigit then
        (match rest with
         | c :: rest2 =>
           if slashSep c then
             (match rest2 with
              | x :: y :: r =>
                if x.isDigit then
                  if y.isDigit then
                    (if headNonWord r then some (10 * dval a + dval b, 10 * dval x + dval y, r) else none)
                  else if !isWordChar y then some (10 * dval a + dval b, dval x, y :: r) else none
                else none
              | [x] => if x.isDigit then some (10 * dval a + dval b, dval x, []) else none
              | [] => none)
           else none
         | [] => none)
      else if slashSep b then
        (match rest with
         | x :: y :: r =>
           if x.isDigit then
             if y.isDigit then
               (if headNonWord r then some (dval a, 10 * dval x + dval y, r) else none)
             else if !isWordChar y then some (dval a, dval x, y :: r) else none
           else none
         | [x] => if x.isDigit then some (dval a, dval x, []) else none
         | [] => none)
      else none
    else none

/-- Remove every match of `\b\d{1,2}[/\-]\d{1,2}\b` (`re.sub`). -/
def subSlashAux : Nat → Option Char → List Char → List Char
  | 0, _, s => s
  | _ + 1, _, [] => []
  | fuel + 1, prev, c :: cs =>
    match (if boundaryOk prev then slashAtR (c :: cs) else none) with
    | some (_, b, rest) => subSlashAux fuel (some (digitChar (b % 10))) rest
    | none => c :: subSlashAux fuel (some c) cs

def subSlash (s : List Char) : List Char := subSlashAux (s.length + 1) none s

inductive Mer where
  | am : Mer
  | pm : Mer
deriving DecidableEq, Repr

/-- Pattern `(\d{1,2}):` at the current position: the hour digits (greedy, two
then one) followed by the literal colon. -/
def hourColon : List Char → Option (Nat × List Char)
  | a :: b :: c :: r =>
    if a.isDigit then
      if b.isDigit then (if c = ':' then some (10 * dval a + dval b, r) else none)
      else if b = ':' then some (dval a, c :: r) else none
    else none
  | [a, b] => if a.isDigit && b = ':' then some (dval a, []) else none
  | _ => none

/-- Pattern `(?::\d{2})?` (greedy): the position after the seconds, when present. -/
def secondsOpt : List Char → Option (List Char)
  | c :: a :: b :: r => if c = ':' && a.isDigit && b.isDigit then some r else none
  | _ => none

/-- Pattern `\s*(am|pm)?\b` starting right after the minute (or second) digits.
Backtracking resolved: the meridiem can only follow the whole
whitespace run; with no meridiem, a boundary is always available inside
or right after a non-empty run, and otherwise requires a non-word (or
absent) next character. -/
def colonEndNoMer (s : List Char) : Option (Option Mer) :=
  match s with
  | [] => some none
  | c :: _ =>
    if isSpaceChar c then some none
    else if !isWordChar c then some none
    else none

def colonEnd (s : List Char) : Option (Option Mer) :=
  let r := dropSpaces s
  match dropLit "am".toList r with
  | some r2 => if headNonWord r2 then some (some Mer.am) else colonEndNoMer s
  | none =>
    match dropLit "pm".toList r with
    | some r2 => if headNonWord r2 then some (some Mer.pm) else colonEndNoMer s
    | none => colonEndNoMer s

/-- Pattern `\b(\d{1,2}):(\d{2})(?::\d{2})?\s*(am|pm)?\b` at the current
position (after `\b`), with the optional seconds tried greedily. -/
def colonAt (s : List Char) : Option (Nat × Nat × Option Mer) :=
  match hourColon s with
  | some (h, r1) =>
    (match takeDigits 2 0 r1 with
     | some (mn, r2) =>
       (match (match secondsOpt r2 with
               | some r3 => colonEnd r3
               | none => none) with
        | some mer => some (h, mn, mer)
        | none =>
          (match colonEnd r2 with
           | some mer => some (h, mn, mer)
           | none => none))
     | none => none)
  | none => none

def colonFind (lower : List Char) : Option (Nat × Nat × Option Mer) :=
  scanOptFrom (fun prev s => if boundaryOk prev then colonAt s else none) none lower

/-- Pattern `\s*(am|pm)\b` starting right after the hour digits (the meridiem can
only follow the whole whitespace run). -/
def bareTail (h : Nat) (s : List Char) : Option (Nat × Mer) :=
  let r := dropSpaces s
  match dropLit "am".toList r with
  | some r2 => if headNonWord r2 then some (h, Mer.am) else none
  | none =>
    match dropLit "pm".toList r with
    | some r2 => if headNonWord r2 then some (h, Mer.pm) else none
    | none => none

/-- Pattern `\b(\d{1,2})\s*(am|pm)\b` at the current position (after `\b`). -/
def bareAt : List Char → Option (Nat × Mer)
  | [] => none
  | a :: rest =>
    if a.isDigit then
      match rest with
      | b :: rest2 => if b.isDigit then bareTail (10 * dval a + dval b) rest2 else bareTail (dval a) rest
      | [] => none
    else none

def bareHourFind (lower : List Char) : Option (Nat × Mer) :=
  scanOptFrom (fun prev s => if boundaryOk prev then bareAt s else none) none lower

/-- The meridiem conversion shared by both time rules: `pm` adds 12
unless the hour is already 12; `am` maps hour 12 to 0. -/
def to24 (h : Nat) (mer : Option Mer) : Nat :=
  if mer = some Mer.pm ∧ h ≠ 12 then h + 12
  else if mer = some Mer.am ∧ h = 12 then 0
  else h

/-- Format `f"{n:02d}"` for `n < 100`. -/
def fmt2 (n : Nat) : String := String.mk [digitChar (n / 10), digitChar (n % 10)]

/-- Rule 2 of `_parse_time` plus the final `return ""`. -/
def bareRule (lower : List Char) : String :=
  match bareHourFind lower with
  | some (h, mer) =>
    let h24 := to24 h (some mer)
    if h24 ≤ 23 then fmt2 h24 ++ ":00" else ""
  | none => ""

/-- Embedding of `_parse_time`: strip date-like patterns, then the colon rule, then
the bare-hour rule, else the empty string. -/
def _parse_time (text : String) : String :=
  let cleaned := subSlash (subISO text.toList)
  let lower := lowerStr cleaned
  match colonFind lower with
  | some (h, mn, mer) =>
    let h24 := to24 h mer
    if h24 ≤ 23 ∧ mn ≤ 59 then fmt2 h24 ++ ":" ++ fmt2 mn else bareRule lower
  | none => bareRule lower

-- ---------------------------------------------------------------------------
-- `_parse_party_size` (src/nlp_parser.py lines 208-234)
-- ---------------------------------------------------------------------------

def digitRunAux (acc : Nat) : List Char → Nat × List Char
  | [] => (acc, [])
  | c :: cs => if c.isDigit then digitRunAux (10 * acc + dval c) cs else (acc, c :: cs)

/-- Pattern `(\d+)` (greedy): a maximal digit run and its value. -/
def digitRun : List Char → Option (Nat × List Char)
  | [] => none
  | c :: cs =>
    if c.isDigit then
      match digitRunAux (dval c) cs with
      | (n, r) => some (n, r)
    else none

/-- Pattern `for\s+(\d+)\s*(?:people|person|guests?|pax|seats?)?` at the
current position (the optional trailing noun never constrains the
match or the captured value). -/
def pat1At (s : List Char) : Option Nat :=
  match dropLit "for".toList s with
  | some r1 =>
    (match eatSpaces1 r1 with
     | some r2 =>
       (match digitRun r2 with
        | some (n, _) => some n
        | none => none)
     | none => none)
  | none => none

def isPrefixOf (p s : List Char) : Bool := (dropLit p s).isSome

/-- Alternation `(?:people|persons?|guests?|pax|seats?|diners?)`: with no
trailing anchor, a prefix of the mandatory stem suffices. -/
def nounAt (s : List Char) : Bool :=
  isPrefixOf "people".toList s || isPrefixOf "person".toList s ||
  isPrefixOf "guest".toList s || isPrefixOf "pax".toList s ||
  isPrefixOf "seat".toList s || isPrefixOf "diner".toList s

/-- Pattern `(\d+)\s+(?:people|persons?|guests?|pax|seats?|diners?)` at
the current position. -/
def pat2At (s : List Char) : Option Nat :=
  match digitRun s with
  | some (n, r) =>
    (match eatSpaces1 r with
     | some r2 => if nounAt r2 then some n else none
     | none => none)
  | none => none

/-- Pattern `party\s+of\s+(\d+)` at the current position. -/
def pat3At (s : List Char) : Option Nat :=
  match dropLit "party".toList s with
  | some r1 =>
    (match eatSpaces1 r1 with
     | some r2 =>
       (match dropLit "of".toList r2 with
        | some r3 =>
          (match eatSpaces1 r3 with
           | some r4 =>
             (match digitRun r4 with
              | some (n, _) => some n
              | none => none)
           | none => none)
        | none => none)
     | none => none)
  | none => none

/-- Pattern `table\s+for\s+(\d+)` at the current position. -/
def pat4At (s : List Char) : Option Nat :=
  match dropLit "table".toList s with
  | some r1 =>
    (match eatSpaces1 r1 with
     | some r2 =>
       (match dropLit "for".toList r2 with
        | some r3 =>
          (match eatSpaces1 r3 with
           | some r4 =>
             (match digitRun r4 with
              | some (n, _) => some n
              | none => none)
           | none => none)
        | none => none)
     | none => none)
  | none => none

def find1 (lower : List Char) : Option Nat := scanOptFrom (fun _ s => pat1At s) none lower

def find2 (lower : List Char) : Option Nat := scanOptFrom (fun _ s => pat2At s) none lower

def find3 (lower : List Char) : Option Nat := scanOptFrom (fun _ s => pat3At s) none lower

def find4 (lower : List Char) : Option Nat := scanOptFrom (fun _ s => pat4At s) none lower

/-- Range gate on a structured match: `if 1 <= n <= 20: return n`,
otherwise the loop moves to the next pattern. -/
def inRange (r : Option Nat) : Option Nat :=
  match r with
  | some n => if 1 ≤ n ∧ n ≤ 20 then some n else none
  | none => none

/-- Pattern `\s*(?:am|pm)\b` right after the digits (and optional
seconds) of the time-strip pattern; returns the rest after the
meridiem. -/
def stripTimeTail (s : List Char) : Option (List Char) :=
  let r := dropSpaces s
  match dropLit "am".toList r with
  | some r2 => if headNonWord r2 then some r2 else none
  | none =>
    match dropLit "pm".toList r with
    | some r2 => if headNonWord r2 then some r2 else none
    | none => none

/-- Pattern `\b\d{1,2}(?::\d{2})?\s*(?:am|pm)\b` at the current position
(after `\b`); the optional seconds are tried greedily. -/
def stripTimeAt (s : List Char) : Option (List Char) :=
  match s with
  | [] => none
  | a :: rest =>
    if a.isDigit then
      let afterDigits : List Char :=
        match rest with
        | b :: rest2 => if b.isDigit then rest2 else rest
        | [] => []
      match (match afterDigits with
             | c :: d :: e :: r => if c = ':' && d.isDigit && e.isDigit then stripTimeTail r else none
             | _ => none) with
      | some r => some r
      | none => stripTimeTail afterDigits
    else none

/-- Strip of known time patterns
(`re.sub(r"\b\d{1,2}(?::\d{2})?\s*(?:am|pm)\b", "", lower)`); every
match ends in the letter `m`. -/
def subTimeAux : Nat → Option Char → List Char → List Char
  | 0, _, s => s
  | _ + 1, _, [] => []
  | fuel + 1, prev, c :: cs =>
    match (if boundaryOk prev then stripTimeAt (c :: cs) else none) with
    | some rest => subTimeAux fuel (some 'm') rest
    | none => c :: subTimeAux fuel (some c) cs

def subTime (s : List Char) : List Char := subTimeAux (s.length + 1) none s

/-- Pattern `(?<![:\d])(\b[2-9]\b)(?![\d:])`: a lone digit 2-9 whose
neighbours are absent or non-word and not a colon. -/
def sideOkPrev : Option Char → Bool
  | none => true
  | some p => !isWordChar p && p ≠ ':'

def sideOkNext : List Char → Bool
  | [] => true
  | n :: _ => !isWordChar n && n ≠ ':'

def partyDigitFind : List Char → Option Nat :=
  scanOptFrom
    (fun prev s =>
      match s with
      | c :: cs =>
        if ('2' ≤ c && c ≤ '9') && sideOkPrev prev && sideOkNext cs then some (dval c)
        else none
      | [] => none)
    none

/-- Embedding of `_parse_party_size`: ordered patterns, range-gated,
then the lone-digit rule on the time-stripped text, else 2. -/
def _parse_party_size (text : String) : Nat :=
  let lower := lowerStr text.toList
  match inRange (find1 lower) with
  | some n => n
  | none =>
    match inRange (find2 lower) with
    | some n => n
    | none =>
      match inRange (find3 lower) with
      | some n => n
      | none =>
        match inRange (find4 lower) with
        | some n => n
        | none =>
          match partyDigitFind (subTime lower) with
          | some n => n
          | none => 2

-- ---------------------------------------------------------------------------
-- `_parse_restaurant_name` (src/nlp_parser.py lines 237-279)
-- ---------------------------------------------------------------------------

def _NOISE_WORDS : List (List Char) :=
  ["book".toList, "reserve".toList, "make".toList, "a".toList, "table".toList,
   "reservation".toList, "for".toList, "at".toList, "in".toList,
   "the".toList, "restaurant".toList, "tonight".toList, "today".toList,
   "tomorrow".toList, "next".toList, "people".toList,
   "person".toList, "guests".toList, "guest".toList, "pax".toList,
   "dinner".toList, "lunch".toList, "breakfast".toList,
   "brunch".toList, "seats".toList, "seat".toList, "please".toList, "me".toList,
   "us".toList, "want".toList, "need".toList, "get".toList,
   "find".toList, "search".toList, "check".toList, "monday".toList,
   "tuesday".toList, "wednesday".toList, "thursday".toList,
   "friday".toList, "saturday".toList, "sunday".toList, "mon".toList,
   "tue".toList, "wed".toList, "thu".toList, "fri".toList, "sat".toList,
   "sun".toList, "am".toList, "pm".toList]

def noiseHas (w : List Char) : Bool := _NOISE_WORDS.any (fun x => x == w)

/-- Character class `[A-Za-z '\-]` of the name capture. -/
def nameClassChar (c : Char) : Bool := c.isAlpha || c = ' ' || c = apos || c = '-'

/-- Terminator `(?:\s*$|[,.\!?]|\s+(?:on|this|next|tonight|tomorrow|\d))`
of the "at name" capture (case-insensitive). -/
def atTermAt (s : List Char) : Bool :=
  s.all isSpaceChar ||
  (match s with
   | c :: _ => c = ',' || c = '.' || c = '!' || c = '?'
   | [] => false) ||
  (match eatSpaces1 s with
   | some r =>
     (dropLitCI "on".toList r).isSome || (dropLitCI "this".toList r).isSome ||
     (dropLitCI "next".toList r).isSome || (dropLitCI "tonight".toList r).isSome ||
     (dropLitCI "tomorrow".toList r).isSome ||
     (match r with
      | c :: _ => c.isDigit
      | [] => false)
   | none => false)

/-- Lazy capture `([A-Za-z][A-Za-z '\-]+?)`: after the first letter,
consume one class character at a time and stop at the first position
where the terminator matches. -/
def atCapLoop (term : List Char → Bool) : List Char → List Char → Option (List Char)
  | acc, c :: cs =>
    if nameClassChar c then
      if term cs then some ((c :: acc).reverse)
      else atCapLoop term (c :: acc) cs
    else none
  | _, [] => none

/-- Pattern `\bat\s+([A-Za-z][A-Za-z '\-]+?)(?:\s*$|[,.\!?]|\s+(?:on|this|next|tonight|tomorrow|\d))`
at the current position (after `\b`), case-insensitive. -/
def atFindAt (s : List Char) : Option (List Char) :=
  match dropLitCI "at".toList s with
  | some r1 =>
    (match eatSpaces1 r1 with
     | some r2 =>
       (match r2 with
        | f :: r3 => if f.isAlpha then atCapLoop atTermAt [f] r3 else none
        | [] => none)
     | none => none)
  | none => none

def atFind (text : List Char) : Option (List Char) :=
  scanOptFrom (fun prev s => if boundaryOk prev then atFindAt s else none) none text

/-- Terminator `(?:\s*$|[,.\!?])` of the "in name" capture. -/
def inTermAt (s : List Char) : Bool :=
  s.all isSpaceChar ||
  (match s with
   | c :: _ => c = ',' || c = '.' || c = '!' || c = '?'
   | [] => false)

/-- Pattern `\bin\s+([A-Za-z][A-Za-z '\-]+?)(?:\s*$|[,.\!?])` at the
current position (after `\b`), case-insensitive. -/
def inFindAt (s : List Char) : Option (List Char) :=
  match dropLitCI "in".toList s with
  | some r1 =>
    (match eatSpaces1 r1 with
     | some r2 =>
       (match r2 with
        | f :: r3 => if f.isAlpha then atCapLoop inTermAt [f] r3 else none
        | [] => none)
     | none => none)
  | none => none

def inFind (text : List Char) : Option (List Char) :=
  scanOptFrom (fun prev s => if boundaryOk prev then inFindAt s else none) none text

/-- Python `str.strip()`: remove leading and trailing whitespace. -/
def trimList (s : List Char) : List Char :=
  ((s.dropWhile isSpaceChar).reverse.dropWhile isSpaceChar).reverse

def splitWsAux : List Char → List Char → List (List Char)
  | acc, [] => if acc.isEmpty then [] else [acc.reverse]
  | acc, c :: cs =>
    if isSpaceChar c then
      if acc.isEmpty then splitWsAux [] cs else acc.reverse :: splitWsAux [] cs
    else splitWsAux (c :: acc) cs

/-- Python `str.split()` with no arguments: maximal non-whitespace runs. -/
def splitWs (s : List Char) : List (List Char) := splitWsAux [] s

/-- Embedding of `_clean_restaurant_name`: drop trailing noise words
(case-folded) and re-join with single spaces. -/
def _clean_restaurant_name (name : List Char) : List Char :=
  let parts := splitWs name
  List.intercalate " ".toList ((parts.reverse.dropWhile (fun w => noiseHas (lowerStr w))).reverse)

/-- Character class `[A-Za-z''\-]` of the capitalised-word fallback. -/
def fallbackWordChar (c : Char) : Bool := c.isAlpha || c = apos || c = '-'

def findallWordsAux : List Char → List Char → List (List Char)
  | acc, [] => if acc.isEmpty then [] else [acc.reverse]
  | acc, c :: cs =>
    if fallbackWordChar c then findallWordsAux (c :: acc) cs
    else if acc.isEmpty then findallWordsAux [] cs
    else acc.reverse :: findallWordsAux [] cs

/-- Search `re.findall(r"[A-Za-z''\-]+", text)`: maximal runs of the
fallback word class. -/
def findallWords (text : List Char) : List (List Char) := findallWordsAux [] text

def capNonNoise (w : List Char) : Bool :=
  (match w with
   | c :: _ => c.isUpper
   | [] => false) && !noiseHas (lowerStr w)

/-- Fallback 3 of `_parse_restaurant_name`: capitalised words that are
not noise, joined with spaces (an empty join is the final `return ""`). -/
def fallbackName (text : List Char) : List Char :=
  List.intercalate " ".toList ((findallWords text).filter capNonNoise)

/-- Rules 2 and 3 of `_parse_restaurant_name` (reached when the "at"
rule does not return). -/
def inOrFallback (t : List Char) : String :=
  match inFind t with
  | some cap =>
    let name := trimList cap
    let words := (splitWs name).filter (fun w => !noiseHas (lowerStr w))
    if words.isEmpty then String.mk (fallbackName t)
    else String.mk (_clean_restaurant_name (List.intercalate " ".toList words))
  | none => String.mk (fallbackName t)

/-- Embedding of `_parse_restaurant_name`: the "at name" rule (skipped
when the capture itself is a noise word), then the "in name" rule, then
the capitalised-word fallback. -/
def _parse_restaurant_name (text : String) : String :=
  let t := text.toList
  match atFind t with
  | some cap =>
    let name := trimList cap
    if !noiseHas (lowerStr name) then String.mk (_clean_restaurant_name name)
    else inOrFallback t
  | none => inOrFallback t

-- ---------------------------------------------------------------------------
-- `ParsedRequest` and `parse_reservation_request` (lines 20-42, 286-311)
-- ---------------------------------------------------------------------------

/-- The parsed record; `date` is an optional day ordinal. -/
structure ParsedRequest where
  restaurant_name : String := ""
  date : Option Nat := none
  time_str : String := ""
  party_size : Nat := 2
  raw : String := ""
deriving DecidableEq, Repr

/-- Embedding of `parse_reservation_request`.  The source defaults a
missing `now` to `datetime.now()`; that ambient clock is modelled as
the explicit `ambientNow` argument, consulted only when `now` is
`none`. -/
def parse_reservation_request (text : String) (now : Option DateTime)
    (ambientNow : DateTime) : ParsedRequest :=
  let n := now.getD ambientNow
  let t := _parse_time text
  { restaurant_name := _parse_restaurant_name text
    date := _parse_date text n
    time_str := if t = "" then "20:00" else t
    party_size := _parse_party_size text
    raw := text }

-- ---------------------------------------------------------------------------
-- Claims
-- ---------------------------------------------------------------------------

/-- C6: for every input text and reference instant, the parser entry
point returns a plain `ParsedRequest` record — the total composition of
the four extractors with the "20:00" time default — never an error;
absent fields are only the empty string / absent date produced by the
extractors themselves. -/
theorem c6_total_composition (text : String) (now : Option DateTime) (ambientNow : DateTime) :
    parse_reservation_request text now ambientNow =
      { restaurant_name := _parse_restaurant_name text
        date := _parse_date text (now.getD ambientNow)
        time_str := if _parse_time text = "" then "20:00" else _parse_time text
        party_size := _parse_party_size text
        raw := text } := rfl

/-- C7: for every reference instant (supplied or ambient), parsing the
empty string yields exactly the empty restaurant name, an absent date,
time "20:00" and party size 2. -/
theorem c7_empty_input_defaults (now : Option DateTime) (ambientNow : DateTime) :
    parse_reservation_request "" now ambientNow =
      { restaurant_name := "", date := none, time_str := "20:00", party_size := 2, raw := "" } := rfl

/-- C8: the parser is deterministic: with the text and the reference
instant fixed, the ambient clock (the model of `datetime.now()`) has no
influence on the result, and parsing twice yields identical records. -/
theorem c8_determinism (text : String) (ref : DateTime) (ambient1 ambient2 : DateTime) :
    parse_reservation_request text (some ref) ambient1 =
      parse_reservation_request text (some ref) ambient2 ∧
    parse_reservation_request text (some ref) ambient1 =
      parse_reservation_request text (some ref) ambient1 :=
  ⟨rfl, rfl⟩

/-- C9: with "dinner friday or monday" (no tonight/today/tomorrow),
"friday" occurs first in the text but the weekday loop follows the
`_WEEKDAY_MAP` insertion order, so "monday" wins and the resolved date
(from reference Wednesday 2025-03-05) is Monday 2025-03-10, not Friday
2025-03-07. -/
theorem c9_weekday_map_order :
    containsWord "friday".toList (lowerStr "dinner friday or monday".toList) = true ∧
    findWeekday (lowerStr "dinner friday or monday".toList) = some ("monday".toList, 0) ∧
    _parse_date "dinner friday or monday" ⟨2025, 3, 5⟩ = some (toNum 2025 3 10) ∧
    toNum 2025 3 10 ≠ toNum 2025 3 7 := by decide

/-- C10: on "at the restaurant, in Paris" the "at name" rule captures
"the restaurant" — a multi-word phrase that is not itself a noise word,
so the rule fires — trimming removes every word and the extractor
returns the empty string, although the unattempted "in name" rule would
have produced "Paris". -/
theorem c10_noise_phrase_empty :
    atFind "at the restaurant, in Paris".toList = some "the restaurant".toList ∧
    noiseHas (lowerStr (trimList "the restaurant".toList)) = false ∧
    _clean_restaurant_name (trimList "the restaurant".toList) = [] ∧
    inOrFallback "at the restaurant, in Paris".toList = "Paris" ∧
    _parse_restaurant_name "at the restaurant, in Paris" = "" := by decide

/-- C1: whenever the text has no tonight/today/tomorrow keyword and the
weekday loop finds a weekday word `w`, the resolved date is the
reference date plus `daysAhead = (w - referenceWeekday) mod 7`, with
`daysAhead = 0` forced to 7 whether or not "next" precedes the name and
"next" otherwise leaving `daysAhead` unchanged; in particular, from
reference Wednesday 2025-03-05, "next Friday" resolves to 2025-03-07,
"next Saturday" to 2025-03-08, bare "Thursday" to 2025-03-06 and a bare
"wednesday" (the reference weekday) to 2025-03-12, a week ahead. -/
theorem c1_weekday_resolution (text : String) (now : DateTime) (name : List Char) (w : Nat)
    (h1 : hasTonightOrToday (lowerStr text.toList) = false)
    (h2 : hasTomorrow (lowerStr text.toList) = false)
    (h3 : findWeekday (lowerStr text.toList) = some (name, w)) :
    (_parse_date text now =
      some (dtToNum now +
        (if (((w : Int) - ((dtToNum now % 7 : Nat) : Int)) % 7).toNat = 0 then 7
         else (((w : Int) - ((dtToNum now % 7 : Nat) : Int)) % 7).toNat))) ∧
    _parse_date "next Friday" ⟨2025, 3, 5⟩ = some (toNum 2025 3 7) ∧
    _parse_date "next Saturday" ⟨2025, 3, 5⟩ = some (toNum 2025 3 8) ∧
    _parse_date "Thursday" ⟨2025, 3, 5⟩ = some (toNum 2025 3 6) ∧
    _parse_date "wednesday" ⟨2025, 3, 5⟩ = some (toNum 2025 3 12) := by
  refine ⟨?_, by decide, by decide, by decide, by decide⟩
  simp only [_parse_date, h1, h2, h3, Bool.false_eq_true, if_false]
  split <;> rfl

/-- Witness for C1 at "next Friday" from reference Wednesday
2025-03-05: the hypotheses hold concretely and the resolved date is
indeed 2025-03-07. -/
theorem c1_weekday_resolution_witness :
    hasTonightOrToday (lowerStr "next Friday".toList) = false ∧
    findWeekday (lowerStr "next Friday".toList) = some ("friday".toList, 4) ∧
    _parse_date "next Friday" ⟨2025, 3, 5⟩ = some (toNum 2025 3 7) :=
  ⟨by decide, by decide,
    (c1_weekday_resolution "next Friday" ⟨2025, 3, 5⟩ "friday".toList 4
      (by decide) (by decide) (by decide)).2.1⟩

/-- C4: a first-rule match "for N" with N in [1,20] is returned
directly; a structured match out of range (for example "for 25 people",
where rule 1 captures 25) is treated as no match, later rules are still
tried, and the result falls back to the default 2; in particular
"for 4 people" yields 4, "party of 5" yields 5, "table for 3" yields 3,
"book 2 tonight 8pm at Prozdor" yields 2 (lone-digit rule, with "8pm"
stripped first) and a text with no count phrase yields 2. -/
theorem c4_party_size_rules (text : String) (n : Nat)
    (h1 : find1 (lowerStr text.toList) = some n) (hlo : 1 ≤ n) (hhi : n ≤ 20) :
    _parse_party_size text = n ∧
    find1 (lowerStr "for 25 people".toList) = some 25 ∧
    find2 (lowerStr "for 25 people".toList) = some 25 ∧
    ¬ (25 : Nat) ≤ 20 ∧
    _parse_party_size "for 25 people" = 2 ∧
    _parse_party_size "for 4 people" = 4 ∧
    _parse_party_size "party of 5" = 5 ∧
    _parse_party_size "table for 3" = 3 ∧
    _parse_party_size "book 2 tonight 8pm at Prozdor" = 2 ∧
    _parse_party_size "no count phrase here" = 2 := by
  refine ⟨?_, by decide, by decide, by decide, by decide, by decide, by decide, by decide,
    by decide, by decide⟩
  simp only [_parse_party_size, h1, inRange]
  rw [if_pos ⟨hlo, hhi⟩]

/-- Witness for C4 at "for 4 people": rule 1 captures 4, in range, and
the extractor returns it. -/
theorem c4_party_size_rules_witness :
    find1 (lowerStr "for 4 people".toList) = some 4 ∧ _parse_party_size "for 4 people" = 4 :=
  ⟨by decide,
    (c4_party_size_rules "for 4 people" 4 (by decide) (by decide) (by decide)).1⟩

/-- C5: whenever the "at name" pattern matches and the (stripped)
capture is not itself a noise word, the extractor returns the capture
with trailing noise words trimmed; in particular
"book 2 tonight 8pm at Prozdor" yields "Prozdor" and
"reservation for 4 tomorrow 7:30pm at Machneyuda" yields
"Machneyuda". -/
theorem c5_at_name_rule (text : String) (cap : List Char)
    (hat : atFind text.toList = some cap)
    (hnoise : noiseHas (lowerStr (trimList cap)) = false) :
    _parse_restaurant_name text = String.mk (_clean_restaurant_name (trimList cap)) ∧
    _parse_restaurant_name "book 2 tonight 8pm at Prozdor" = "Prozdor" ∧
    _parse_restaurant_name "reservation for 4 tomorrow 7:30pm at Machneyuda" = "Machneyuda" := by
  refine ⟨?_, by decide, by decide⟩
  simp only [_parse_restaurant_name, hat, hnoise, Bool.not_false, if_true]

/-- Witness for C5 at "book 2 tonight 8pm at Prozdor": the pattern
captures "Prozdor", which is not a noise word, and the extractor
returns it. -/
theorem c5_at_name_rule_witness :
    atFind "book 2 tonight 8pm at Prozdor".toList = some "Prozdor".toList ∧
    _parse_restaurant_name "book 2 tonight 8pm at Prozdor" = "Prozdor" :=
  ⟨by decide,
    (c5_at_name_rule "book 2 tonight 8pm at Prozdor" "Prozdor".toList
        (by decide) (by decide)).1.trans (by decide)⟩

/-- C3: time extraction first tries the colon form; when it matches
with hour `h`, minute `mn` and optional meridiem, the 24-hour
conversion adds 12 for pm unless the hour is 12 and maps hour 12 to 0
for am; an in-range result (hour at most 23, minute at most 59) is
formatted as HH:MM, and an out-of-range one fails over to the
bare-hour-with-meridiem rule (minutes forced to 00); in particular
"7:30pm" yields "19:30", "12:00 am" yields "00:00", "20:30" yields
"20:30", "8pm" yields "20:00" and "12pm" yields "12:00". -/
theorem c3_time_rules (text : String) (h mn : Nat) (mer : Option Mer)
    (hc : colonFind (lowerStr (subSlash (subISO text.toList))) = some (h, mn, mer)) :
    ((if mer = some Mer.pm ∧ h ≠ 12 then h + 12
      else if mer = some Mer.am ∧ h = 12 then 0 else h) ≤ 23 ∧ mn ≤ 59 →
      _parse_time text =
        fmt2 (if mer = some Mer.pm ∧ h ≠ 12 then h + 12
              else if mer = some Mer.am ∧ h = 12 then 0 else h) ++ ":" ++ fmt2 mn) ∧
    (¬ ((if mer = some Mer.pm ∧ h ≠ 12 then h + 12
         else if mer = some Mer.am ∧ h = 12 then 0 else h) ≤ 23 ∧ mn ≤ 59) →
      _parse_time text = bareRule (lowerStr (subSlash (subISO text.toList)))) ∧
    _parse_time "7:30pm" = "19:30" ∧
    _parse_time "12:00 am" = "00:00" ∧
    _parse_time "20:30" = "20:30" ∧
    _parse_time "8pm" = "20:00" ∧
    _parse_time "12pm" = "12:00" := by
  refine ⟨?_, ?_, by decide, by decide, by decide, by decide, by decide⟩
  · intro hin
    simp only [_parse_time, hc, to24]
    rw [if_pos hin]
  · intro hout
    simp only [_parse_time, hc, to24]
    rw [if_neg hout]

/-- Witness for C3 at "7:30pm": the colon rule captures hour 7, minute
30, meridiem pm; the converted hour 19 is in range and the result is
"19:30". -/
theorem c3_time_rules_witness :
    colonFind (lowerStr (subSlash (subISO "7:30pm".toList))) = some (7, 30, some Mer.pm) ∧
    _parse_time "7:30pm" = "19:30" :=
  ⟨by decide,
    ((c3_time_rules "7:30pm" 7 30 (some Mer.pm) (by decide)).1 (by decide)).trans (by decide)⟩

-- ---------------------------------------------------------------------------
-- C2: calendar lemmas
-- ---------------------------------------------------------------------------

/-- Adding one year adds the leap-day count of that year. -/
theorem leapsBefore_step (y : Nat) (hy : 1 ≤ y) :
    leapsBefore y = leapsBefore (y - 1) + (if isLeap y then 1 else 0) := by
  obtain ⟨n, rfl⟩ : ∃ n, y = n + 1 := ⟨y - 1, by omega⟩
  unfold leapsBefore isLeap
  simp only [Nat.add_sub_cancel]
  split
  · rename_i hL
    simp only [Bool.or_eq_true, Bool.and_eq_true, decide_eq_true_eq, bne_iff_ne, ne_eq] at hL
    omega
  · rename_i hL
    simp only [Bool.or_eq_true, Bool.and_eq_true, decide_eq_true_eq, bne_iff_ne, ne_eq,
      not_or, not_and, not_not] at hL
    omega

/-- A valid date of year `y` precedes every ordinal of year `y + 1`. -/
theorem toNum_lt_nextYear (y m d : Nat) (h : isValidYMD y m d = true) :
    toNum y m d < daysBeforeYear (y + 1) := by
  simp only [isValidYMD, Bool.and_eq_true, decide_eq_true_eq] at h
  obtain ⟨⟨⟨⟨⟨hy1, hy2⟩, hm1⟩, hm2⟩, hd1⟩, hd2⟩ := h
  have hstep := leapsBefore_step y hy1
  unfold toNum daysBeforeYear
  simp only [Nat.add_sub_cancel]
  rw [hstep]
  cases hL : isLeap y with
  | true =>
    simp only [hL, if_true]
    unfold daysInMonth at hd2
    interval_cases m <;> simp_all [daysBeforeMonth] <;> omega
  | false =>
    simp only [hL, Bool.false_eq_true, if_false]
    unfold daysInMonth at hd2
    interval_cases m <;> simp_all [daysBeforeMonth] <;> omega

/-- Every ordinal constructed for year `y` is at least the first
ordinal of year `y`. -/
theorem mkDate_ge (y m d v : Nat) (h : mkDate y m d = some v) : daysBeforeYear y ≤ v := by
  unfold mkDate at h
  split at h
  · injection h with h
    subst h
    unfold toNum
    omega
  · exact absurd h (by simp)

/-- The month-name rule never produces a date before the reference
date. -/
theorem monthRule_ge (l : List (List Char × Nat)) (lower : List Char) (y today d : Nat)
    (hb : today < daysBeforeYear (y + 1))
    (h : monthRule l lower y today = some d) : ¬ d < today := by
  induction l with
  | nil => simp [monthRule] at h
  | cons p rest ih =>
    obtain ⟨mn, mnum⟩ := p
    simp only [monthRule] at h
    split at h
    · split at h
      · split at h
        · split at h
          · rename_i heq2
            injection h with h
            subst h
            have := mkDate_ge (y + 1) mnum _ _ heq2
            omega
          · exact ih h
        · rename_i hge
          injection h with h
          subst h
          exact hge
      · exact ih h
    · exact ih h

/-- The slash/dash rule never produces a date before the reference
date. -/
theorem slashTry_ge (l : List (Nat × Nat)) (y today d : Nat)
    (hb : today < daysBeforeYear (y + 1))
    (h : slashTry l y today = some d) : ¬ d < today := by
  induction l with
  | nil => simp [slashTry] at h
  | cons p rest ih =>
    obtain ⟨month, day⟩ := p
    simp only [slashTry] at h
    split at h
    · split at h
      · split at h
        · split at h
          · rename_i heq2
            injection h with h
            subst h
            have := mkDate_ge (y + 1) month _ _ heq2
            omega
          · exact ih h
        · rename_i hge
          injection h with h
          subst h
          exact hge
      · exact ih h
    · exact ih h

/-- C2 (amended): a parsed date strictly earlier than the reference
date can only come from the literal ISO rule; every other rule resolves
at or after the reference date. -/
theorem c2_amended_only_iso_past (text : String) (now : DateTime) (d : Nat)
    (hv : validDT now = true)
    (hp : _parse_date text now = some d)
    (hlt : d < dtToNum now) :
    ∃ yy mm dd, isoFind text.toList = some (yy, mm, dd) ∧ mkDate yy mm dd = some d := by
  have hb : dtToNum now < daysBeforeYear (now.year + 1) :=
    toNum_lt_nextYear now.year now.month now.day hv
  simp only [_parse_date] at hp
  split at hp
  · injection hp with hp
    omega
  · split at hp
    · injection hp with hp
      omega
    · split at hp
      · injection hp with hp
        omega
      · split at hp
        · rename_i x heq
          injection hp with hp
          subst hp
          exact absurd hlt (monthRule_ge _ _ _ _ _ hb heq)
        · split at hp
          · rename_i x heq
            injection hp with hp
            subst hp
            unfold isoRule at heq
            split at heq
            · rename_i yy mm dd heq2
              exact ⟨yy, mm, dd, heq2, heq⟩
            · exact absurd heq (by simp)
          · unfold slashRule at hp
            split at hp
            · exact absurd hlt (slashTry_ge _ _ _ _ hb hp)
            · exact absurd hp (by simp)

/-- C2 (counterexample): parsing "2020-01-01" with reference date
2025-03-05 stores the literal past date 2020-01-01, strictly earlier
than the reference "today", refuting the claim that a present date is
never earlier than the reference date. -/
theorem c2_counterexample :
    (parse_reservation_request "2020-01-01" (some ⟨2025, 3, 5⟩) ⟨2025, 3, 5⟩).date =
      some (toNum 2020 1 1) ∧
    toNum 2020 1 1 < dtToNum ⟨2025, 3, 5⟩ := by decide

/-- Witness for the amended C2 at text "2020-01-01" and reference
2025-03-05: the parsed date is in the past and indeed stems from the
ISO rule. -/
theorem c2_amended_only_iso_past_witness :
    validDT ⟨2025, 3, 5⟩ = true ∧
    _parse_date "2020-01-01" ⟨2025, 3, 5⟩ = some (toNum 2020 1 1) ∧
    toNum 2020 1 1 < dtToNum ⟨2025, 3, 5⟩ ∧
    (∃ yy mm dd, isoFind "2020-01-01".toList = some (yy, mm, dd) ∧
      mkDate yy mm dd = some (toNum 2020 1 1)) :=
  ⟨by decide, by decide, by decide,
    c2_amended_only_iso_past "2020-01-01" ⟨2025, 3, 5⟩ (toNum 2020 1 1)
      (by decide) (by decide) (by decide)⟩
